import Mathlib

/-!
# WildFireFighters — verification of the simulation core

A shallow embedding, over the rationals, of the gameplay core of the
WildFireFighters source (a React/Three.js component): player movement with
tree collision (`updatePlayer`), the fire-spread automaton (`updateFires`),
water-to-fire suppression (`checkWaterFireCollision`), terminal-state
evaluation (`checkGameConditions`), the per-frame pipeline (`gameTick`,
mirroring the `playing` branch of `gameLoop`), and procedural placement
(`generateTrees`, `initializeFires`).

Conventions of the embedding:

* JS numbers are modelled as `ℚ`.  Every comparison the source makes
  against a `Math.sqrt` value is embedded in its exact square-free form
  (`Math.sqrt d2 < r` becomes `0 < r ∧ d2 < r ^ 2`, using `√x < r ↔
  (0 < r ∧ x < r²)` for `x ≥ 0`); where a square root or a sine/cosine
  VALUE (not a comparison) feeds later arithmetic, the embedding is
  parameterised by a `MathOracle` supplying those functions.
* `Math.random()` is modelled as an explicit stream `ℕ → ℚ` together
  with a next-draw index that every sampling function threads through.
  Only gameplay-relevant draws are modelled; draws that feed the cosmetic
  particle systems (out-of-scope rendering) are omitted, which is sound
  because every theorem either quantifies over the stream or uses a
  constant stream.
* The JS `Map` keyed by the string `` `${⌊x/2⌋}-${⌊z/2⌋}` `` is modelled
  as an insertion-ordered association list keyed by the integer pair
  `(⌊x/2⌋, ⌊z/2⌋)`; the string encoding is injective on such pairs, and
  `Map.set` / `Map.delete` / iteration-order semantics are reproduced by
  `setKey` / `List.filterMap` / the worklist in `updateFiresAux`.
* All rendering, HUD, camera, input-capture and Farcaster-SDK code is
  external to the core and is not modelled (the spec declares it out of
  scope).
-/

/-- 3-component vector, as the source's `Vector3` interface. -/
structure Vec3 where
  x : ℚ
  y : ℚ
  z : ℚ
deriving DecidableEq, Repr

/-- The player record (the `mesh` field is a rendering handle, not modelled). -/
structure Player where
  position : Vec3
  rotation : ℚ
  waterLevel : ℚ
  maxWater : ℚ
  isRefilling : Bool
deriving DecidableEq, Repr

/-- One fire cell (the `mesh` field is a rendering handle, not modelled). -/
structure FireCell where
  x : ℚ
  z : ℚ
  intensity : ℚ
  spreadTime : ℚ
deriving DecidableEq, Repr

/-- A static tree obstacle (`{ x; z; radius }` in the source; named
`TreeObstacle` here because `Tree` already exists in the library). -/
structure TreeObstacle where
  x : ℚ
  z : ℚ
  radius : ℚ
deriving DecidableEq, Repr

/-- A refill station (the `mesh` field is a rendering handle, not modelled). -/
structure RefillStation where
  position : Vec3
  radius : ℚ
deriving DecidableEq, Repr

/-- The set of currently held logical inputs, as read from `keysRef`. -/
structure Keys where
  w : Bool := false
  s : Bool := false
  a : Bool := false
  d : Bool := false
  arrowLeft : Bool := false
  arrowRight : Bool := false
  space : Bool := false
deriving DecidableEq, Repr

/-- The `gameStatus` union type of the source. -/
inductive GameStatus where
  | playing
  | won
  | lost
  | tutorial
deriving DecidableEq, Repr

/-- Oracle for the transcendental `Math` functions whose values (rather than
a comparison against them) feed later arithmetic: `Math.sin`/`Math.cos` of
the heading and `Math.sqrt` of the movement-vector length. -/
structure MathOracle where
  sin : ℚ → ℚ
  cos : ℚ → ℚ
  sqrt : ℚ → ℚ

-- The source's module-level constants.

def WORLD_SIZE : ℚ := 40

def GRID_SIZE : ℚ := 2

def WATER_RANGE : ℚ := 8

def REFILL_RATE : ℚ := 2

def FIRE_SPREAD_RATE : ℚ := 4

def INITIAL_FIRES : ℕ := 5

/-- Grid key of a world coordinate: the integer pair
`(Math.floor(x / GRID_SIZE), Math.floor(z / GRID_SIZE))` that the source
packs into the string `` `${a}-${b}` `` (injective on integer pairs). -/
def keyOf (x z : ℚ) : ℤ × ℤ := (⌊x / GRID_SIZE⌋, ⌊z / GRID_SIZE⌋)

/-- The fire map: an insertion-ordered association list, as a JS `Map`. -/
abbrev FireMap := List ((ℤ × ℤ) × FireCell)

/-- `Map.has`. -/
def hasKey (m : FireMap) (k : ℤ × ℤ) : Bool :=
  m.any fun e => decide (e.1 = k)

/-- `Map.set`: replace in place when the key exists (keeping its iteration
position), otherwise append at the end. -/
def setKey : FireMap → ℤ × ℤ → FireCell → FireMap
  | [], k, c => [(k, c)]
  | e :: rest, k, c => if e.1 = k then (k, c) :: rest else e :: setKey rest k c

/-- Square-free embedding of `distance3D a b < r` (the source compares the
`Math.sqrt` of the sum of squares against `r`). -/
def distLt3 (a b : Vec3) (r : ℚ) : Bool :=
  decide (0 < r ∧
    (a.x - b.x) ^ 2 + (a.y - b.y) ^ 2 + (a.z - b.z) ^ 2 < r ^ 2)

/-- World-bound clamp of `updatePlayer`:
`Math.max(-halfWorld, Math.min(halfWorld, v))` with
`halfWorld = WORLD_SIZE / 2 - 2`. -/
def clampB (v : ℚ) : ℚ :=
  max (-(WORLD_SIZE / 2 - 2)) (min (WORLD_SIZE / 2 - 2) v)

/-- Net heading after the arrow-key branches of `updatePlayer`
(`rotationSpeed = 0.032`, scaled by `60 * deltaTime`; both keys may hold). -/
def rotAfter (keys : Keys) (r0 dt : ℚ) : ℚ :=
  let r1 := if keys.arrowLeft then r0 + (32 / 1000) * 60 * dt else r0
  if keys.arrowRight then r1 - (32 / 1000) * 60 * dt else r1

/-- The raw WASD movement vector of `updatePlayer` (before normalisation). -/
def moveVec (keys : Keys) : ℚ × ℚ :=
  ((if keys.a then (-1 : ℚ) else 0) + (if keys.d then 1 else 0),
   (if keys.w then (-1 : ℚ) else 0) + (if keys.s then 1 else 0))

/-- Normalise the movement vector by its (oracle) length and rotate it by
the heading, as `updatePlayer` does. -/
def rotatedDir (O : MathOracle) (r : ℚ) (mv : ℚ × ℚ) : ℚ × ℚ :=
  let len := O.sqrt (mv.1 * mv.1 + mv.2 * mv.2)
  let ux := mv.1 / len
  let uz := mv.2 / len
  let c := O.cos r
  let sn := O.sin r
  (ux * c - uz * sn, ux * sn + uz * c)

/-- The tree-collision scan of `updatePlayer`: trunk hit
(`dist < 0.4 + 1`, breaking out of the loop) and foliage hit
(`dist < tree.radius + 1`), both in square-free form.  Returns
`(trunkCollision, inFoliage)`; `foli` is the `inFoliage` accumulator. -/
def treeScan (nX nZ : ℚ) : List TreeObstacle → Bool → Bool × Bool
  | [], foli => (false, foli)
  | t :: ts, foli =>
    let d2 := (nX - t.x) ^ 2 + (nZ - t.z) ^ 2
    if d2 < (4 / 10 + 1) ^ 2 then (true, foli)
    else treeScan nX nZ ts (foli || decide (0 < t.radius + 1 ∧ d2 < (t.radius + 1) ^ 2))

/-- The movement block of `updatePlayer` for a nonzero movement vector:
compute the full-speed candidate, scan the trees, then either block, move
at half speed, or take the candidate; finally clamp to world bounds. -/
def applyMovement (trees : List TreeObstacle) (px pz rx rz dt : ℚ) : ℚ × ℚ :=
  let baseSpeed : ℚ := 5
  let newX := px + rx * baseSpeed * dt
  let newZ := pz + rz * baseSpeed * dt
  let scan := treeScan newX newZ trees false
  let m :=
    if scan.1 then (px, pz)
    else if scan.2 then
      (px + rx * (baseSpeed * (1 / 2)) * dt, pz + rz * (baseSpeed * (1 / 2)) * dt)
    else (newX, newZ)
  (clampB m.1, clampB m.2)

/-- `true` iff some refill station contains the position; the source breaks
at the first match, but the refill update is the same for every station, so
the first-match semantics coincides with `any`. -/
def refillScan (stations : List RefillStation) (pos : Vec3) : Bool :=
  stations.any fun st => distLt3 pos st.position st.radius

/-- The movement part of `updatePlayer`: the position is touched only when
the raw movement vector is nonzero (`moveVector.x !== 0 || moveVector.z !== 0`),
in which case the normalised, heading-rotated direction drives
`applyMovement`. -/
def movedXZ (O : MathOracle) (trees : List TreeObstacle) (keys : Keys)
    (px pz r2 dt : ℚ) : ℚ × ℚ :=
  let mv := moveVec keys
  if mv.1 ≠ 0 ∨ mv.2 ≠ 0 then
    let dir := rotatedDir O r2 mv
    applyMovement trees px pz dir.1 dir.2 dt
  else (px, pz)

/-- The water-shooting branch of `updatePlayer`:
`Math.max(0, waterLevel - 30 * deltaTime)` while space is held and the
level is positive. -/
def shootWater (keys : Keys) (w dt : ℚ) : ℚ :=
  if keys.space ∧ w > 0 then max 0 (w - 30 * dt) else w

/-- The refill branch of `updatePlayer`:
`Math.min(maxWater, waterLevel + REFILL_RATE * deltaTime * 60)` while
inside a station. -/
def refillWater (refilling : Bool) (maxW w dt : ℚ) : ℚ :=
  if refilling then min maxW (w + REFILL_RATE * dt * 60) else w

/-- `updatePlayer(player, deltaTime)` of the source: heading from arrow
keys, WASD movement with tree collision and world-bound clamp, water
depletion while shooting (`30 * deltaTime`, floored at `0`), and refill
(`REFILL_RATE * deltaTime * 60`, capped at `maxWater`) when inside a
station (checked at the post-movement position).  Mesh/particle updates
are rendering and are not modelled. -/
def updatePlayer (O : MathOracle) (trees : List TreeObstacle)
    (stations : List RefillStation) (keys : Keys) (player : Player)
    (dt : ℚ) : Player :=
  let r2 := rotAfter keys player.rotation dt
  let pos1 := movedXZ O trees keys player.position.x player.position.z r2 dt
  let w1 := shootWater keys player.waterLevel dt
  let newPos : Vec3 := ⟨pos1.1, player.position.y, pos1.2⟩
  let refill := refillScan stations newPos
  { position := newPos, rotation := r2,
    waterLevel := refillWater refill player.maxWater w1 dt,
    maxWater := player.maxWater, isRefilling := refill }

/-- The per-cell growth step of `updateFires`:
`fire.spreadTime += deltaTime; fire.intensity = Math.min(1, fire.intensity + deltaTime * 0.1)`. -/
def fireGrowth (dt : ℚ) (c : FireCell) : FireCell :=
  { c with spreadTime := c.spreadTime + dt,
           intensity := min 1 (c.intensity + dt * (1 / 10)) }

/-- The four axis-aligned spread offsets, in the source's fixed order. -/
def directions : List (ℚ × ℚ) :=
  [(GRID_SIZE, 0), (-GRID_SIZE, 0), (0, GRID_SIZE), (0, -GRID_SIZE)]

/-- The fire cell that a successful spread inserts: snapped coordinates and
initial intensity `0.3`. -/
def newFireCell (nX nZ : ℚ) : FireCell :=
  ⟨(⌊nX / GRID_SIZE⌋ : ℤ) * GRID_SIZE, (⌊nZ / GRID_SIZE⌋ : ℤ) * GRID_SIZE, 3 / 10, 0⟩

/-- The spread attempts of one eligible cell, one independent draw per
direction in order: on `Math.random() < spreadChance`, the wind-biased
target is computed and inserted iff it lies strictly inside the world and
its key is free in the CURRENT map (which includes earlier insertions).
Arguments: the full current map `m`, the insertions-so-far accumulator
`ins`, and the next draw index `i`.  Returns `(map, inserted, index)`. -/
def trySpreadDirs (wind : Vec3) (chance fx fz : ℚ) (rng : ℕ → ℚ) :
    List (ℚ × ℚ) → FireMap → FireMap → ℕ → FireMap × FireMap × ℕ
  | [], m, ins, i => (m, ins, i)
  | d :: ds, m, ins, i =>
    if rng i < chance then
      let nX := fx + d.1 + wind.x * GRID_SIZE
      let nZ := fz + d.2 + wind.z * GRID_SIZE
      let nk := keyOf nX nZ
      if |nX| < WORLD_SIZE / 2 ∧ |nZ| < WORLD_SIZE / 2 ∧ hasKey m nk = false then
        trySpreadDirs wind chance fx fz rng ds
          (m ++ [(nk, newFireCell nX nZ)]) (ins ++ [(nk, newFireCell nX nZ)]) (i + 1)
      else trySpreadDirs wind chance fx fz rng ds m ins (i + 1)
    else trySpreadDirs wind chance fx fz rng ds m ins (i + 1)

/-- The body of `updateFires`' loop for one visited cell `(k, c)`: grow it,
and when its timer exceeds `FIRE_SPREAD_RATE / gameSpeed`, reset the timer
and attempt the four spreads with
`spreadChance = intensity * windSpeed * 0.2`.  `done` and `rest` are the
parts of the map before and after the visited entry; occupancy checks see
the whole map with the visited cell already updated in place.  Returns
`(updated cell, inserted cells, next draw index)`. -/
def processFire (wind : Vec3) (ws gs dt : ℚ) (rng : ℕ → ℚ)
    (done rest : FireMap) (k : ℤ × ℤ) (c : FireCell) (i : ℕ) :
    FireCell × FireMap × ℕ :=
  let c1 := fireGrowth dt c
  if c1.spreadTime > FIRE_SPREAD_RATE / gs then
    let c2 := { c1 with spreadTime := 0 }
    let chance := c2.intensity * ws * (1 / 5)
    let r := trySpreadDirs wind chance c2.x c2.z rng directions
      (done ++ (k, c2) :: rest) [] i
    (c2, r.2.1, r.2.2)
  else (c1, [], i)

/-- The `for (const [key, fire] of newFires)` loop of `updateFires`.  A JS
`Map` iterator also visits entries appended during the iteration, so the
loop is a worklist: `done` holds the visited prefix, `todo` the rest, and
insertions go to the end of `todo`.  The recursion is bounded by `fuel`;
`updateFires` supplies fuel that the real loop can never exhaust (at most
`400` distinct in-bounds grid keys can ever be inserted), and on
exhaustion the remaining entries are returned unprocessed. -/
def updateFiresAux (wind : Vec3) (ws gs dt : ℚ) (rng : ℕ → ℚ) :
    ℕ → FireMap → FireMap → ℕ → FireMap × ℕ
  | _, done, [], i => (done, i)
  | 0, done, todo, i => (done ++ todo, i)
  | fuel + 1, done, (k, c) :: rest, i =>
    let r := processFire wind ws gs dt rng done rest k c i
    updateFiresAux wind ws gs dt rng fuel (done ++ [(k, r.1)]) (rest ++ r.2.1) r.2.2

/-- `updateFires(fires, deltaTime)`: grow every cell and spread eligible
ones, visiting cells inserted during the same tick as the JS iterator does.
Returns the new map and the next draw index. -/
def updateFires (wind : Vec3) (ws gs dt : ℚ) (rng : ℕ → ℚ)
    (fires : FireMap) (i : ℕ) : FireMap × ℕ :=
  updateFiresAux wind ws gs dt rng (fires.length + 400) [] fires i

/-- The per-entry action of `checkWaterFireCollision` when shooting is
active: if the fire is within `WATER_RANGE` of the player and the unit
vector towards it, dotted with the facing vector
`(sin rotation, -cos rotation)`, exceeds `0.4`, reduce its intensity by
`1.5 * deltaTime`, deleting the cell when the result is `≤ 0`.  The cone
test is the square-free form of `dot > 0.4` with the direction normalised
by `√(dx² + dz²)` (for the zero vector the source's `normalize3D` yields a
zero dot, matching the `0 < s` conjunct failing). -/
def suppressCell (O : MathOracle) (player : Player) (dt : ℚ)
    (e : (ℤ × ℤ) × FireCell) : Option ((ℤ × ℤ) × FireCell) :=
  let fire := e.2
  let d2 := (player.position.x - fire.x) ^ 2 + (player.position.y - 0) ^ 2 +
    (player.position.z - fire.z) ^ 2
  if d2 < WATER_RANGE ^ 2 then
    let dx := fire.x - player.position.x
    let dz := fire.z - player.position.z
    let wx := O.sin player.rotation
    let wz := -(O.cos player.rotation)
    let sdot := dx * wx + dz * wz
    if 0 < sdot ∧ (4 / 10) ^ 2 * (dx ^ 2 + dz ^ 2) < sdot ^ 2 then
      let i2 := fire.intensity - (3 / 2) * dt
      if i2 ≤ 0 then none else some (e.1, { fire with intensity := i2 })
    else some e
  else some e

/-- `checkWaterFireCollision(player, fires, deltaTime)`: a no-op unless the
space key is held and the (post-depletion) water level is positive;
otherwise each cell is independently damaged or deleted, which on the
ordered map is exactly `filterMap` (the loop only ever deletes the entry it
is visiting).  Mesh disposal is rendering and is not modelled. -/
def checkWaterFireCollision (O : MathOracle) (keys : Keys) (player : Player)
    (fires : FireMap) (dt : ℚ) : FireMap :=
  if keys.space ∧ player.waterLevel > 0 then
    fires.filterMap (suppressCell O player dt)
  else fires

/-- `checkGameConditions(player, fires)`: `lost` when some fire cell is
within `1.5` units of the player, else `won` when the map is empty, else
`playing`. -/
def checkGameConditions (player : Player) (fires : FireMap) : GameStatus :=
  if fires.any (fun e => distLt3 player.position ⟨e.2.x, 0, e.2.z⟩ (3 / 2)) then
    .lost
  else if fires.isEmpty then .won
  else .playing

/-- The whole game state owned by `setGameState` (rendering refs omitted). -/
structure SimState where
  player : Player
  fires : FireMap
  gameStatus : GameStatus
  windDirection : Vec3
  windSpeed : ℚ
  timeElapsed : ℚ
  gameSpeed : ℚ
  trees : List TreeObstacle
  refillStations : List RefillStation
deriving Repr

/-- One frame of `gameLoop` for an externally supplied `deltaTime`: when
the status is `playing`, run `updatePlayer`, then `updateFires`, then
`checkWaterFireCollision` on the updated player and fires, then evaluate
`checkGameConditions` on the results of that same tick; accumulate elapsed
time and recompute the difficulty
`gameSpeed = Math.min(1.8, 1 + timeElapsed / 90)` from the PREVIOUS
elapsed time.  In any other status the state is untouched (FPS counting
and rendering are external). -/
def gameTick (O : MathOracle) (keys : Keys) (rng : ℕ → ℚ) (i : ℕ)
    (s : SimState) (dt : ℚ) : SimState :=
  if s.gameStatus = .playing then
    let p := updatePlayer O s.trees s.refillStations keys s.player dt
    let f1 := updateFires s.windDirection s.windSpeed s.gameSpeed dt rng s.fires i
    let f2 := checkWaterFireCollision O keys p f1.1 dt
    { s with player := p, fires := f2,
             gameStatus := checkGameConditions p f2,
             timeElapsed := s.timeElapsed + dt,
             gameSpeed := min (9 / 5) (1 + s.timeElapsed / 90) }
  else s

/-- One round of the bounded (`maxAttempts = 200`) placement loop of
`generateTrees`, recursing on the remaining attempts `n`.  Each attempt
draws `x`, `z` and `treeRadius`, and places the tree only when it is far
from every refill station (`< 5`), from the world centre (`< 8`) and from
every placed tree (`< tree.radius + treeRadius + 1`), all square-free.
When the attempts run out NOTHING is placed: the source has no fallback
branch for trees.  Returns the (possibly extended) list and next index. -/
def treeAttempts (rng : ℕ → ℚ) (stations : List RefillStation)
    (trees : List TreeObstacle) : ℕ → ℕ → List TreeObstacle × ℕ
  | 0, i => (trees, i)
  | n + 1, i =>
    let x := (rng i - 1 / 2) * (WORLD_SIZE - 5)
    let z := (rng (i + 1) - 1 / 2) * (WORLD_SIZE - 5)
    let nearStation := stations.any fun st =>
      decide ((x - st.position.x) ^ 2 + (z - st.position.z) ^ 2 < 5 ^ 2)
    let nearCenter : Bool := decide (x ^ 2 + z ^ 2 < 8 ^ 2)
    let treeRadius := rng (i + 2) * (8 / 10) + 1
    let nearOtherTree := trees.any fun t =>
      decide (0 < t.radius + treeRadius + 1 ∧
        (x - t.x) ^ 2 + (z - t.z) ^ 2 < (t.radius + treeRadius + 1) ^ 2)
    if !nearStation && !nearCenter && !nearOtherTree then
      (trees ++ [⟨x, z, treeRadius * (8 / 10)⟩], i + 3)
    else treeAttempts rng stations trees n (i + 3)

/-- The outer `for (let i = 0; i < 40 && trees.length < 40; i++)` loop of
`generateTrees`, recursing on the remaining outer iterations. -/
def genTreesLoop (rng : ℕ → ℚ) (stations : List RefillStation) :
    ℕ → List TreeObstacle → ℕ → List TreeObstacle × ℕ
  | 0, trees, i => (trees, i)
  | n + 1, trees, i =>
    if trees.length < 40 then
      let r := treeAttempts rng stations trees 200 i
      genTreesLoop rng stations n r.1 r.2
    else (trees, i)

/-- `generateTrees(refillStations)`: up to 40 trees, each given up to 200
collision-avoiding placement attempts. -/
def generateTrees (rng : ℕ → ℚ) (stations : List RefillStation) (i : ℕ) :
    List TreeObstacle × ℕ :=
  genTreesLoop rng stations 40 [] i

/-- The `while (attempts < 100 && !placed)` loop of `initializeFires`,
recursing on the remaining attempts.  Each attempt draws a fresh `x`, `z`;
the position is accepted when its grid key is free and either the map is
empty or every existing fire is more than `6` units away (square-free).
Returns the last drawn `(x, z)`, whether placement succeeded, and the next
draw index. -/
def fireAttempts (rng : ℕ → ℚ) (fires : FireMap) :
    ℕ → ℕ → ℚ → ℚ → ℚ × ℚ × Bool × ℕ
  | 0, i, x, z => (x, z, false, i)
  | n + 1, i, _, _ =>
    let x := (rng i - 1 / 2) * (WORLD_SIZE - 10)
    let z := (rng (i + 1) - 1 / 2) * (WORLD_SIZE - 10)
    let k := keyOf x z
    if hasKey fires k = false ∧
        (fires.isEmpty ∨ fires.all fun e =>
          decide (6 ^ 2 < (x - e.2.x) ^ 2 + (z - e.2.z) ^ 2)) then
      (x, z, true, i + 2)
    else fireAttempts rng fires n (i + 2) x z

/-- One iteration of `initializeFires`' outer loop: the two dead pre-loop
draws, the bounded attempt loop, the unconstrained fallback draws when the
loop failed, the intensity draw `Math.random() * 0.5 + 0.5`, and the
unconditional `fires.set` (which OVERWRITES an existing cell at the same
key).  Cosmetic particle draws are omitted. -/
def placeFire (rng : ℕ → ℚ) (i : ℕ) (fires : FireMap) : FireMap × ℕ :=
  let x0 := (rng i - 1 / 2) * (WORLD_SIZE - 10)
  let z0 := (rng (i + 1) - 1 / 2) * (WORLD_SIZE - 10)
  let r := fireAttempts rng fires 100 (i + 2) x0 z0
  let xz :=
    if r.2.2.1 then (r.1, r.2.1, r.2.2.2)
    else ((rng r.2.2.2 - 1 / 2) * (WORLD_SIZE - 10),
      (rng (r.2.2.2 + 1) - 1 / 2) * (WORLD_SIZE - 10), r.2.2.2 + 2)
  let inten := rng xz.2.2 * (1 / 2) + 1 / 2
  (setKey fires (keyOf xz.1 xz.2.1)
    ⟨(⌊xz.1 / GRID_SIZE⌋ : ℤ) * GRID_SIZE, (⌊xz.2.1 / GRID_SIZE⌋ : ℤ) * GRID_SIZE,
      inten, 0⟩,
   xz.2.2 + 1)

/-- The `for (let i = 0; i < INITIAL_FIRES; i++)` loop of
`initializeFires`, recursing on the remaining iterations. -/
def initFiresLoop (rng : ℕ → ℚ) : ℕ → FireMap → ℕ → FireMap × ℕ
  | 0, fires, i => (fires, i)
  | n + 1, fires, i =>
    let r := placeFire rng i fires
    initFiresLoop rng n r.1 r.2

/-- `initializeFires()`: place `INITIAL_FIRES` seed fires starting from the
empty map. -/
def initializeFires (rng : ℕ → ℚ) (i : ℕ) : FireMap × ℕ :=
  initFiresLoop rng INITIAL_FIRES [] i

/-- The four refill stations of the initial `gameState`. -/
def refillStations0 : List RefillStation :=
  [⟨⟨-15, 0, -15⟩, 3⟩, ⟨⟨15, 0, -15⟩, 3⟩, ⟨⟨-15, 0, 15⟩, 3⟩, ⟨⟨15, 0, 15⟩, 3⟩]

/-- An oracle that is exact at the arguments the concrete scenarios use:
heading `0` (`sin 0 = 0`, `cos 0 = 1`) and a single-axis movement vector
(`√1 = 1`). -/
def oracle0 : MathOracle :=
  { sin := fun _ => 0, cos := fun _ => 1,
    sqrt := fun q => if q = 1 then 1 else 0 }

/-- The constant random stream drawing `1/2` forever. -/
def constHalf : ℕ → ℚ := fun _ => 1 / 2

/-- The initial wind direction of `gameState`. -/
def wind0 : Vec3 := ⟨7 / 10, 0, 3 / 10⟩

/-- A fresh player at the origin with full water (the `startGame` player). -/
def player0 : Player :=
  { position := ⟨0, 0, 0⟩, rotation := 0, waterLevel := 100, maxWater := 100,
    isRefilling := false }

/-- Scenario A fire cell: at `(0, 0, -4)` with intensity `0.5`. -/
def fireHalf : FireCell := ⟨0, -4, 1 / 2, 0⟩

/-- Scenario B/D fire cell: at `(0, 0, -4)` with intensity `0.05`. -/
def fireLow : FireCell := ⟨0, -4, 1 / 20, 0⟩

/-- Only the space key (shoot) held. -/
def keysShoot : Keys := { space := true }

/-- Only the left-arrow key held. -/
def keysTurnLeft : Keys := { arrowLeft := true }

/-- Forward plus turn-left held. -/
def keysWLeft : Keys := { w := true, arrowLeft := true }

/-- A tree one unit in front of the spawn point. -/
def treeC : TreeObstacle := ⟨0, -1, 1⟩

/-- A player standing inside the first refill station's circle. -/
def playerNearStation : Player :=
  { position := ⟨-15, 0, -14⟩, rotation := 0, waterLevel := 50, maxWater := 100,
    isRefilling := false }

/-- Scenario D state: playing, one low-intensity fire dead ahead. -/
def stateD : SimState :=
  { player := player0, fires := [((0, -2), fireLow)], gameStatus := .playing,
    windDirection := wind0, windSpeed := 6 / 5, timeElapsed := 0, gameSpeed := 1,
    trees := [], refillStations := refillStations0 }

-- ### Helper lemmas

theorem clampB_abs (v : ℚ) : |clampB v| ≤ WORLD_SIZE / 2 - 2 := by
  rw [abs_le]
  constructor
  · exact le_max_left _ _
  · exact max_le (by norm_num [WORLD_SIZE]) (min_le_left _ _)

theorem clampB_id (v : ℚ) (h : |v| ≤ WORLD_SIZE / 2 - 2) : clampB v = v := by
  rw [abs_le] at h
  rw [clampB, min_eq_right h.2, max_eq_right h.1]

theorem hasKey_append_false (m ext : FireMap) (k : ℤ × ℤ)
    (h : hasKey (m ++ ext) k = false) : hasKey m k = false := by
  simp only [hasKey, List.any_append, Bool.or_eq_false_iff] at h
  exact h.1

theorem setKey_length_le (m : FireMap) (k : ℤ × ℤ) (c : FireCell) :
    (setKey m k c).length ≤ m.length + 1 := by
  induction m with
  | nil => simp [setKey]
  | cons e rest ih =>
    simp only [setKey]
    split
    · simp
    · simpa using Nat.succ_le_succ ih

theorem setKey_length_ge (m : FireMap) (k : ℤ × ℤ) (c : FireCell) :
    m.length ≤ (setKey m k c).length := by
  induction m with
  | nil => simp [setKey]
  | cons e rest ih =>
    simp only [setKey]
    split
    · simp
    · simpa using Nat.succ_le_succ ih

theorem setKey_length_pos (m : FireMap) (k : ℤ × ℤ) (c : FireCell) :
    1 ≤ (setKey m k c).length := by
  cases m with
  | nil => simp [setKey]
  | cons e rest =>
    have := setKey_length_ge (e :: rest) k c
    simp only [List.length_cons] at this
    omega

theorem updateFiresAux_nil (wind : Vec3) (ws gs dt : ℚ) (rng : ℕ → ℚ)
    (fuel : ℕ) (done : FireMap) (i : ℕ) :
    updateFiresAux wind ws gs dt rng fuel done [] i = (done, i) := by
  cases fuel <;> rfl

theorem updateFiresAux_cons (wind : Vec3) (ws gs dt : ℚ) (rng : ℕ → ℚ)
    (fuel : ℕ) (done : FireMap) (k : ℤ × ℤ) (c : FireCell) (rest : FireMap)
    (i : ℕ) :
    updateFiresAux wind ws gs dt rng (fuel + 1) done ((k, c) :: rest) i =
      updateFiresAux wind ws gs dt rng fuel
        (done ++ [(k, (processFire wind ws gs dt rng done rest k c i).1)])
        (rest ++ (processFire wind ws gs dt rng done rest k c i).2.1)
        (processFire wind ws gs dt rng done rest k c i).2.2 := rfl

/-- Evaluation of `updateFires` on a one-cell map whose cell does not reach
the spread threshold this tick. -/
theorem updateFires_single (wind : Vec3) (ws gs dt : ℚ) (rng : ℕ → ℚ)
    (k : ℤ × ℤ) (c : FireCell) (i : ℕ)
    (h : ¬ (fireGrowth dt c).spreadTime > FIRE_SPREAD_RATE / gs) :
    updateFires wind ws gs dt rng [(k, c)] i = ([(k, fireGrowth dt c)], i) := by
  show updateFiresAux wind ws gs dt rng (400 + 1) [] [(k, c)] i = _
  rw [updateFiresAux_cons]
  simp only [processFire, if_neg h]
  simp only [List.nil_append, List.append_nil]
  rw [updateFiresAux_nil]

theorem treeScan_fst (nX nZ : ℚ) :
    ∀ (ts : List TreeObstacle) (f : Bool),
      (treeScan nX nZ ts f).1 =
        ts.any fun t => decide ((nX - t.x) ^ 2 + (nZ - t.z) ^ 2 < (4 / 10 + 1) ^ 2) := by
  intro ts
  induction ts with
  | nil => intro f; simp [treeScan]
  | cons t rest ih =>
    intro f
    simp only [treeScan, List.any_cons]
    split
    · next h => simp [h]
    · next h => simp [h, ih]

theorem treeScan_snd (nX nZ : ℚ) :
    ∀ (ts : List TreeObstacle) (f : Bool), (treeScan nX nZ ts f).1 = false →
      (treeScan nX nZ ts f).2 =
        (f || ts.any fun t => decide (0 < t.radius + 1 ∧
          (nX - t.x) ^ 2 + (nZ - t.z) ^ 2 < (t.radius + 1) ^ 2)) := by
  intro ts
  induction ts with
  | nil => intro f _; simp [treeScan]
  | cons t rest ih =>
    intro f hf
    simp only [treeScan, List.any_cons]
    simp only [treeScan] at hf
    split
    · next h => rw [if_pos h] at hf; simp at hf
    · next h =>
      rw [if_neg h] at hf
      rw [ih _ hf, Bool.or_assoc]

theorem updatePlayer_maxWater (O : MathOracle) (trees : List TreeObstacle)
    (stations : List RefillStation) (keys : Keys) (p : Player) (dt : ℚ) :
    (updatePlayer O trees stations keys p dt).maxWater = p.maxWater := rfl

theorem updatePlayer_waterLevel_eq (O : MathOracle) (trees : List TreeObstacle)
    (stations : List RefillStation) (keys : Keys) (p : Player) (dt : ℚ) :
    (updatePlayer O trees stations keys p dt).waterLevel =
      refillWater (updatePlayer O trees stations keys p dt).isRefilling
        p.maxWater (shootWater keys p.waterLevel dt) dt := rfl

theorem updatePlayer_position_eq (O : MathOracle) (trees : List TreeObstacle)
    (stations : List RefillStation) (keys : Keys) (p : Player) (dt : ℚ) :
    (updatePlayer O trees stations keys p dt).position =
      ⟨(movedXZ O trees keys p.position.x p.position.z
          (rotAfter keys p.rotation dt) dt).1,
        p.position.y,
        (movedXZ O trees keys p.position.x p.position.z
          (rotAfter keys p.rotation dt) dt).2⟩ := rfl

theorem updatePlayer_rotation_eq (O : MathOracle) (trees : List TreeObstacle)
    (stations : List RefillStation) (keys : Keys) (p : Player) (dt : ℚ) :
    (updatePlayer O trees stations keys p dt).rotation =
      rotAfter keys p.rotation dt := rfl

theorem shootWater_bounds (keys : Keys) (w dt maxW : ℚ) (hdt : 0 ≤ dt)
    (h0 : 0 ≤ w) (h1 : w ≤ maxW) :
    0 ≤ shootWater keys w dt ∧ shootWater keys w dt ≤ maxW := by
  rw [shootWater]
  split
  · refine ⟨le_max_left _ _, max_le (le_trans h0 h1) (le_trans ?_ h1)⟩
    nlinarith
  · exact ⟨h0, h1⟩

theorem refillWater_bounds (refilling : Bool) (maxW w dt : ℚ) (hdt : 0 ≤ dt)
    (h0 : 0 ≤ w) (h1 : w ≤ maxW) :
    0 ≤ refillWater refilling maxW w dt ∧
      refillWater refilling maxW w dt ≤ maxW := by
  rw [refillWater]
  split
  · have : (0 : ℚ) ≤ REFILL_RATE * dt * 60 := by
      norm_num [REFILL_RATE]; positivity
    exact ⟨le_min (le_trans h0 h1) (by linarith), min_le_left _ _⟩
  · exact ⟨h0, h1⟩

theorem updatePlayer_water_bounds (O : MathOracle) (trees : List TreeObstacle)
    (stations : List RefillStation) (keys : Keys) (p : Player) (dt : ℚ)
    (hdt : 0 ≤ dt) (h0 : 0 ≤ p.waterLevel) (h1 : p.waterLevel ≤ p.maxWater) :
    0 ≤ (updatePlayer O trees stations keys p dt).waterLevel ∧
      (updatePlayer O trees stations keys p dt).waterLevel ≤ p.maxWater := by
  rw [updatePlayer_waterLevel_eq]
  obtain ⟨a, b⟩ := shootWater_bounds keys p.waterLevel dt p.maxWater hdt h0 h1
  exact refillWater_bounds _ _ _ _ hdt a b

theorem movedXZ_bounds (O : MathOracle) (trees : List TreeObstacle)
    (keys : Keys) (px pz r2 dt : ℚ)
    (hx : |px| ≤ WORLD_SIZE / 2 - 2) (hz : |pz| ≤ WORLD_SIZE / 2 - 2) :
    |(movedXZ O trees keys px pz r2 dt).1| ≤ WORLD_SIZE / 2 - 2 ∧
      |(movedXZ O trees keys px pz r2 dt).2| ≤ WORLD_SIZE / 2 - 2 := by
  rw [movedXZ]
  split
  · simp only [applyMovement]
    exact ⟨clampB_abs _, clampB_abs _⟩
  · exact ⟨hx, hz⟩

theorem updatePlayer_pos_bounds (O : MathOracle) (trees : List TreeObstacle)
    (stations : List RefillStation) (keys : Keys) (p : Player) (dt : ℚ)
    (hx : |p.position.x| ≤ WORLD_SIZE / 2 - 2)
    (hz : |p.position.z| ≤ WORLD_SIZE / 2 - 2) :
    |(updatePlayer O trees stations keys p dt).position.x| ≤ WORLD_SIZE / 2 - 2 ∧
      |(updatePlayer O trees stations keys p dt).position.z| ≤ WORLD_SIZE / 2 - 2 := by
  rw [updatePlayer_position_eq]
  exact movedXZ_bounds O trees keys _ _ _ dt hx hz

theorem suppress_intensity_bounds (O : MathOracle) (keys : Keys) (p : Player)
    (fires : FireMap) (dt : ℚ) (hdt : 0 ≤ dt)
    (h : ∀ e ∈ fires, 0 ≤ e.2.intensity ∧ e.2.intensity ≤ 1) :
    ∀ e ∈ checkWaterFireCollision O keys p fires dt,
      0 ≤ e.2.intensity ∧ e.2.intensity ≤ 1 := by
  intro e he
  simp only [checkWaterFireCollision] at he
  split at he
  · rw [List.mem_filterMap] at he
    obtain ⟨a, ha, hsome⟩ := he
    have hA := h a ha
    simp only [suppressCell] at hsome
    split at hsome
    · split at hsome
      · split at hsome
        · exact absurd hsome (by simp)
        · next hpos =>
          obtain rfl : (a.1, { a.2 with intensity := a.2.intensity - 3 / 2 * dt }) = e :=
            by simpa using hsome
          constructor
          · simp only []
            push_neg at hpos
            linarith
          · simp only []
            have : (0 : ℚ) ≤ 3 / 2 * dt := by linarith
            linarith [hA.2]
      · obtain rfl : a = e := by simpa using hsome
        exact hA
    · obtain rfl : a = e := by simpa using hsome
      exact hA
  · exact h e he

theorem trySpreadDirs_idx (wind : Vec3) (chance fx fz : ℚ) (rng : ℕ → ℚ) :
    ∀ (ds : List (ℚ × ℚ)) (m ins : FireMap) (i : ℕ),
      (trySpreadDirs wind chance fx fz rng ds m ins i).2.2 = i + ds.length := by
  intro ds
  induction ds with
  | nil => intro m ins i; simp [trySpreadDirs]
  | cons d rest ih =>
    intro m ins i
    simp only [trySpreadDirs]
    split
    · split
      · rw [ih]; simp [List.length_cons]; omega
      · rw [ih]; simp [List.length_cons]; omega
    · rw [ih]; simp [List.length_cons]; omega

/-- Every cell that the spread attempts of one cell insert comes from some
direction index `j`: its own draw beat the spread chance, the wind-biased
target is strictly inside the world, its key was free in the map the
attempts started from, and the cell is a fresh `newFireCell`. -/
theorem trySpreadDirs_inserted (wind : Vec3) (chance fx fz : ℚ) (rng : ℕ → ℚ) :
    ∀ (ds : List (ℚ × ℚ)) (m ins : FireMap) (i : ℕ),
      ∀ e ∈ (trySpreadDirs wind chance fx fz rng ds m ins i).2.1,
        e ∈ ins ∨
        ∃ j < ds.length,
          rng (i + j) < chance ∧
          |fx + (ds.getD j (0, 0)).1 + wind.x * GRID_SIZE| < WORLD_SIZE / 2 ∧
          |fz + (ds.getD j (0, 0)).2 + wind.z * GRID_SIZE| < WORLD_SIZE / 2 ∧
          hasKey m (keyOf (fx + (ds.getD j (0, 0)).1 + wind.x * GRID_SIZE)
            (fz + (ds.getD j (0, 0)).2 + wind.z * GRID_SIZE)) = false ∧
          e = (keyOf (fx + (ds.getD j (0, 0)).1 + wind.x * GRID_SIZE)
                (fz + (ds.getD j (0, 0)).2 + wind.z * GRID_SIZE),
              newFireCell (fx + (ds.getD j (0, 0)).1 + wind.x * GRID_SIZE)
                (fz + (ds.getD j (0, 0)).2 + wind.z * GRID_SIZE)) := by
  intro ds
  induction ds with
  | nil => intro m ins i e he; left; simpa [trySpreadDirs] using he
  | cons d rest ih =>
    intro m ins i e he
    simp only [trySpreadDirs] at he
    split at he
    · next hdraw =>
      split at he
      · next hguard =>
        rcases ih _ _ _ e he with hmem | ⟨j, hj, h1, h2, h3, h4, h5⟩
        · rcases List.mem_append.mp hmem with hins | hnew
          · exact Or.inl hins
          · right
            refine ⟨0, by simp, ?_⟩
            simp only [List.getD_cons_zero, Nat.add_zero]
            simp only [List.mem_singleton] at hnew
            exact ⟨hdraw, hguard.1, hguard.2.1, hguard.2.2, hnew⟩
        · right
          refine ⟨j + 1, by simpa using Nat.succ_lt_succ hj, ?_⟩
          rw [List.getD_cons_succ]
          refine ⟨by rw [show i + (j + 1) = i + 1 + j by omega]; exact h1,
            h2, h3, hasKey_append_false _ _ _ h4, h5⟩
      · rcases ih _ _ _ e he with hmem | ⟨j, hj, h1, h2, h3, h4, h5⟩
        · exact Or.inl hmem
        · right
          refine ⟨j + 1, by simpa using Nat.succ_lt_succ hj, ?_⟩
          rw [List.getD_cons_succ]
          exact ⟨by rw [show i + (j + 1) = i + 1 + j by omega]; exact h1,
            h2, h3, h4, h5⟩
    · rcases ih _ _ _ e he with hmem | ⟨j, hj, h1, h2, h3, h4, h5⟩
      · exact Or.inl hmem
      · right
        refine ⟨j + 1, by simpa using Nat.succ_lt_succ hj, ?_⟩
        rw [List.getD_cons_succ]
        exact ⟨by rw [show i + (j + 1) = i + 1 + j by omega]; exact h1,
          h2, h3, h4, h5⟩

theorem processFire_fst_intensity (wind : Vec3) (ws gs dt : ℚ) (rng : ℕ → ℚ)
    (done rest : FireMap) (k : ℤ × ℤ) (c : FireCell) (i : ℕ)
    (hdt : 0 ≤ dt) (hc : 0 ≤ c.intensity) :
    0 ≤ (processFire wind ws gs dt rng done rest k c i).1.intensity ∧
      (processFire wind ws gs dt rng done rest k c i).1.intensity ≤ 1 := by
  have hg : 0 ≤ (fireGrowth dt c).intensity ∧ (fireGrowth dt c).intensity ≤ 1 := by
    simp only [fireGrowth]
    exact ⟨le_min (by norm_num) (by nlinarith), min_le_left _ _⟩
  rw [processFire]
  split
  · exact hg
  · exact hg

theorem processFire_inserted_cell (wind : Vec3) (ws gs dt : ℚ) (rng : ℕ → ℚ)
    (done rest : FireMap) (k : ℤ × ℤ) (c : FireCell) (i : ℕ) :
    ∀ e ∈ (processFire wind ws gs dt rng done rest k c i).2.1,
      e.2.intensity = 3 / 10 ∧ e.2.spreadTime = 0 := by
  intro e he
  rw [processFire] at he
  split at he
  · rcases trySpreadDirs_inserted _ _ _ _ _ _ _ _ _ e he with h | ⟨_, _, _, _, _, _, h5⟩
    · simp at h
    · subst h5; exact ⟨rfl, rfl⟩
  · simp at he

theorem updateFiresAux_intensity (wind : Vec3) (ws gs dt : ℚ) (rng : ℕ → ℚ)
    (hdt : 0 ≤ dt) :
    ∀ (fuel : ℕ) (done todo : FireMap) (i : ℕ),
      (∀ e ∈ done, 0 ≤ e.2.intensity ∧ e.2.intensity ≤ 1) →
      (∀ e ∈ todo, 0 ≤ e.2.intensity ∧ e.2.intensity ≤ 1) →
      ∀ e ∈ (updateFiresAux wind ws gs dt rng fuel done todo i).1,
        0 ≤ e.2.intensity ∧ e.2.intensity ≤ 1 := by
  intro fuel
  induction fuel with
  | zero =>
    intro done todo i hd ht e he
    cases todo with
    | nil => rw [updateFiresAux_nil] at he; exact hd e he
    | cons hd2 tl =>
      simp only [updateFiresAux] at he
      rcases List.mem_append.mp he with h | h
      · exact hd e h
      · exact ht e h
  | succ fuel ih =>
    intro done todo i hd ht e he
    cases todo with
    | nil => rw [updateFiresAux_nil] at he; exact hd e he
    | cons hd2 tl =>
      obtain ⟨k, c⟩ := hd2
      rw [updateFiresAux_cons] at he
      refine ih _ _ _ ?_ ?_ e he
      · intro a ha
        rcases List.mem_append.mp ha with h | h
        · exact hd a h
        · simp only [List.mem_singleton] at h
          subst h
          exact processFire_fst_intensity wind ws gs dt rng done tl k c i hdt
            (ht (k, c) (List.mem_cons_self _ _)).1
      · intro a ha
        rcases List.mem_append.mp ha with h | h
        · exact ht a (List.mem_cons_of_mem _ h)
        · have := processFire_inserted_cell wind ws gs dt rng done tl k c i a h
          rw [this.1]
          norm_num

theorem updateFires_intensity (wind : Vec3) (ws gs dt : ℚ) (rng : ℕ → ℚ)
    (fires : FireMap) (i : ℕ) (hdt : 0 ≤ dt)
    (h : ∀ e ∈ fires, 0 ≤ e.2.intensity ∧ e.2.intensity ≤ 1) :
    ∀ e ∈ (updateFires wind ws gs dt rng fires i).1,
      0 ≤ e.2.intensity ∧ e.2.intensity ≤ 1 := by
  exact updateFiresAux_intensity wind ws gs dt rng hdt _ [] fires i
    (by intro a ha; simp at ha) h

-- ### Claim theorems

/-- **C1** (code bug).  The claim says a negative or NaN `deltaTime` is
clamped to zero before any rate multiplication, so a tick can never produce
negative intensity or water under/overflow.  The source never clamps:
`gameLoop` computes `(currentTime - lastFrameTime) / 1000` and passes it
straight through.  Evaluating the embedded code at `deltaTime = -1`:
shooting with a full tank raises `waterLevel` to `130 > maxWater = 100`,
and the growth step drives a fire of intensity `0.05` to `-0.05 < 0`. -/
theorem c1_deltaTime_not_clamped :
    (updatePlayer oracle0 [] refillStations0 keysShoot player0 (-1)).waterLevel = 130 ∧
    player0.maxWater = 100 ∧
    (fireGrowth (-1) ⟨0, 0, 1 / 20, 0⟩).intensity = -(1 / 20) := by
  refine ⟨?_, rfl, by norm_num [fireGrowth]⟩
  rw [updatePlayer_waterLevel_eq]
  have href : (updatePlayer oracle0 [] refillStations0 keysShoot player0 (-1)).isRefilling
      = false := by
    show refillScan refillStations0 _ = false
    simp only [updatePlayer, movedXZ, moveVec, keysShoot, player0, refillScan,
      refillStations0, distLt3, List.any_cons, List.any_nil]
    norm_num
  rw [href]
  simp only [refillWater, shootWater, keysShoot, player0, if_neg Bool.false_ne_true]
  norm_num

/-- **C8** (confirmed).  With the shoot key inactive or no water left, the
suppression resolver returns its input fire map unchanged. -/
theorem c8_suppression_inactive_noop (O : MathOracle) (keys : Keys)
    (p : Player) (fires : FireMap) (dt : ℚ)
    (h : ¬(keys.space = true ∧ p.waterLevel > 0)) :
    checkWaterFireCollision O keys p fires dt = fires := by
  rw [checkWaterFireCollision, if_neg]
  simpa using h

theorem c8_witness :
    checkWaterFireCollision oracle0 {} player0 [((0, -2), fireHalf)] (1 / 10)
      = [((0, -2), fireHalf)] :=
  c8_suppression_inactive_noop oracle0 {} player0 [((0, -2), fireHalf)] (1 / 10)
    (by simp)

/-- **C10** (confirmed).  When no movement key is held the position is
returned exactly as it was — the world-bound clamp is inside the movement
branch, so it is not applied either (the first conjunct holds for ANY
position, in-bounds or not) — while rotation, water level and the
refilling flag may still change, as the concrete instance shows: a player
turning left inside a station keeps its position but changes heading,
gains water and sets `isRefilling`. -/
theorem c10_idle_position_exact (O : MathOracle) (trees : List TreeObstacle)
    (stations : List RefillStation) (keys : Keys) (p : Player) (dt : ℚ)
    (hw : keys.w = false) (hs : keys.s = false)
    (ha : keys.a = false) (hd : keys.d = false) :
    (updatePlayer O trees stations keys p dt).position = p.position ∧
    ((updatePlayer oracle0 [] refillStations0 keysTurnLeft playerNearStation
        (1 / 10)).position = playerNearStation.position ∧
      (updatePlayer oracle0 [] refillStations0 keysTurnLeft playerNearStation
        (1 / 10)).rotation = 24 / 125 ∧
      (updatePlayer oracle0 [] refillStations0 keysTurnLeft playerNearStation
        (1 / 10)).waterLevel = 62 ∧
      (updatePlayer oracle0 [] refillStations0 keysTurnLeft playerNearStation
        (1 / 10)).isRefilling = true) := by
  constructor
  · rw [updatePlayer_position_eq, movedXZ]
    simp [moveVec, hw, hs, ha, hd]
  · refine ⟨?_, ?_, ?_, ?_⟩
    · rw [updatePlayer_position_eq, movedXZ]
      simp [moveVec, keysTurnLeft]
    · rw [updatePlayer_rotation_eq]
      norm_num [rotAfter, keysTurnLeft, playerNearStation]
    · rw [updatePlayer_waterLevel_eq]
      have href : (updatePlayer oracle0 [] refillStations0 keysTurnLeft
          playerNearStation (1 / 10)).isRefilling = true := by
        show refillScan refillStations0 _ = true
        simp only [movedXZ, moveVec, keysTurnLeft, playerNearStation]
        norm_num [refillScan, refillStations0, distLt3, List.any_cons, List.any_nil]
      rw [href]
      norm_num [refillWater, shootWater, keysTurnLeft, playerNearStation, REFILL_RATE]
    · show refillScan refillStations0 _ = true
      simp only [movedXZ, moveVec, keysTurnLeft, playerNearStation]
      norm_num [refillScan, refillStations0, distLt3, List.any_cons, List.any_nil]

theorem c10_witness :
    (updatePlayer oracle0 [treeC] refillStations0 keysShoot player0 (1 / 10)).position
      = player0.position :=
  (c10_idle_position_exact oracle0 [treeC] refillStations0 keysShoot player0
    (1 / 10) rfl rfl rfl rfl).1

/-- **C3** (confirmed).  While shooting with water left, suppression acts
independently on every cell (`filterMap`); a cell within `WATER_RANGE = 8`
whose direction-to-fire/facing dot product exceeds `0.4` (stated here in
the exact square-free form) loses exactly `1.5 * deltaTime` intensity and
is removed iff the result is `≤ 0`.  Scenario A: intensity `0.5`,
`deltaTime = 0.1` → `0.35`, retained.  Scenario B: intensity `0.05` →
`≤ 0`, removed. -/
theorem c3_suppression_cone :
    (∀ (O : MathOracle) (keys : Keys) (p : Player) (fires : FireMap) (dt : ℚ),
      keys.space = true → p.waterLevel > 0 →
      checkWaterFireCollision O keys p fires dt
        = fires.filterMap (suppressCell O p dt)) ∧
    (∀ (O : MathOracle) (p : Player) (dt : ℚ) (k : ℤ × ℤ) (c : FireCell),
      (p.position.x - c.x) ^ 2 + (p.position.y - 0) ^ 2 + (p.position.z - c.z) ^ 2
          < WATER_RANGE ^ 2 →
      (0 < (c.x - p.position.x) * O.sin p.rotation
            + (c.z - p.position.z) * -(O.cos p.rotation) ∧
        (4 / 10) ^ 2 * ((c.x - p.position.x) ^ 2 + (c.z - p.position.z) ^ 2)
          < ((c.x - p.position.x) * O.sin p.rotation
              + (c.z - p.position.z) * -(O.cos p.rotation)) ^ 2) →
      suppressCell O p dt (k, c)
        = if c.intensity - 3 / 2 * dt ≤ 0 then none
          else some (k, { c with intensity := c.intensity - 3 / 2 * dt })) ∧
    checkWaterFireCollision oracle0 keysShoot player0 [((0, -2), fireHalf)] (1 / 10)
      = [((0, -2), { fireHalf with intensity := 7 / 20 })] ∧
    checkWaterFireCollision oracle0 keysShoot player0 [((0, -2), fireLow)] (1 / 10)
      = [] := by
  refine ⟨?_, ?_, ?_, ?_⟩
  · intro O keys p fires dt h1 h2
    rw [checkWaterFireCollision, if_pos ⟨h1, h2⟩]
  · intro O p dt k c hrange hcone
    simp only [suppressCell]
    rw [if_pos hrange, if_pos hcone]
  · rw [checkWaterFireCollision, if_pos ⟨rfl, by norm_num [player0]⟩]
    simp only [List.filterMap_cons, List.filterMap_nil, suppressCell,
      player0, fireHalf, oracle0]
    norm_num [WATER_RANGE]
  · rw [checkWaterFireCollision, if_pos ⟨rfl, by norm_num [player0]⟩]
    simp only [List.filterMap_cons, List.filterMap_nil, suppressCell,
      player0, fireLow, oracle0]
    norm_num [WATER_RANGE]

theorem c3_witness :
    suppressCell oracle0 player0 (1 / 10) ((0, -2), fireHalf)
      = some ((0, -2), { fireHalf with intensity := 7 / 20 }) := by
  rw [c3_suppression_cone.2.1 oracle0 player0 (1 / 10) (0, -2) fireHalf
    (by norm_num [player0, fireHalf, WATER_RANGE])
    (by norm_num [player0, fireHalf, oracle0])]
  norm_num [fireHalf]

/-- **C4** (confirmed).  `checkGameConditions` returns `lost` iff some fire
cell lies within `1.5` of the player and `won` iff the map is empty; and a
tick evaluates the terminal check on the SAME tick's post-suppression fire
map, so suppressing the last cell yields `won` that tick. -/
theorem c4_terminal_check :
    (∀ (p : Player) (fires : FireMap),
      (checkGameConditions p fires = .lost ↔
        ∃ e ∈ fires, distLt3 p.position ⟨e.2.x, 0, e.2.z⟩ (3 / 2) = true) ∧
      (checkGameConditions p fires = .won ↔ fires = [])) ∧
    (∀ (O : MathOracle) (keys : Keys) (rng : ℕ → ℚ) (i : ℕ) (s : SimState)
      (dt : ℚ), s.gameStatus = .playing →
      (gameTick O keys rng i s dt).gameStatus =
        checkGameConditions
          (updatePlayer O s.trees s.refillStations keys s.player dt)
          (checkWaterFireCollision O keys
            (updatePlayer O s.trees s.refillStations keys s.player dt)
            (updateFires s.windDirection s.windSpeed s.gameSpeed dt rng
              s.fires i).1 dt)) := by
  constructor
  · intro p fires
    rw [checkGameConditions]
    split_ifs with h1 h2
    · simp only [List.any_eq_true] at h1
      constructor
      · exact ⟨fun _ => h1, fun _ => rfl⟩
      · constructor
        · intro h; cases h
        · intro h
          subst h
          obtain ⟨e, he, _⟩ := h1
          cases he
    · constructor
      · constructor
        · intro h; cases h
        · intro ⟨e, he, hd⟩
          rw [List.isEmpty_iff] at h2
          subst h2
          cases he
      · rw [List.isEmpty_iff] at h2
        exact ⟨fun _ => h2, fun _ => rfl⟩
    · constructor
      · constructor
        · intro h; cases h
        · intro ⟨e, he, hd⟩
          exact absurd (List.any_eq_true.mpr ⟨e, he, hd⟩) h1
      · constructor
        · intro h; cases h
        · intro h
          subst h
          simp at h2
  · intro O keys rng i s dt h
    rw [gameTick, if_pos h]

theorem c4_witness :
    (gameTick oracle0 keysShoot constHalf 0 stateD (1 / 10)).gameStatus
      = .won := by
  rw [c4_terminal_check.2 oracle0 keysShoot constHalf 0 stateD (1 / 10) rfl]
  have hplayer : updatePlayer oracle0 stateD.trees stateD.refillStations
      keysShoot stateD.player (1 / 10)
      = ⟨⟨0, 0, 0⟩, 0, 97, 100, false⟩ := by
    simp only [updatePlayer, movedXZ, moveVec, rotAfter, shootWater, refillWater,
      refillScan, distLt3, refillStations0, stateD, player0, keysShoot,
      REFILL_RATE, List.any_cons, List.any_nil]
    norm_num
  rw [hplayer,
    show (updateFires stateD.windDirection stateD.windSpeed stateD.gameSpeed
        (1 / 10) constHalf stateD.fires 0)
      = ([((0, -2), fireGrowth (1 / 10) fireLow)], 0) from
      updateFires_single _ _ _ _ _ _ _ _
        (by norm_num [fireGrowth, fireLow, FIRE_SPREAD_RATE, stateD])]
  have hsup : checkWaterFireCollision oracle0 keysShoot
      (⟨⟨0, 0, 0⟩, 0, 97, 100, false⟩ : Player)
      [((0, -2), fireGrowth (1 / 10) fireLow)] (1 / 10) = [] := by
    rw [checkWaterFireCollision, if_pos ⟨rfl, by norm_num⟩]
    simp only [List.filterMap_cons, List.filterMap_nil, suppressCell,
      fireGrowth, fireLow, oracle0]
    norm_num [WATER_RANGE]
  rw [hsup]
  rw [checkGameConditions]
  simp

theorem gameTick_playing_fires (O : MathOracle) (keys : Keys) (rng : ℕ → ℚ)
    (i : ℕ) (s : SimState) (dt : ℚ) (h : s.gameStatus = .playing) :
    (gameTick O keys rng i s dt).fires =
      checkWaterFireCollision O keys
        (updatePlayer O s.trees s.refillStations keys s.player dt)
        (updateFires s.windDirection s.windSpeed s.gameSpeed dt rng s.fires i).1
        dt := by
  rw [gameTick, if_pos h]

theorem gameTick_playing_player (O : MathOracle) (keys : Keys) (rng : ℕ → ℚ)
    (i : ℕ) (s : SimState) (dt : ℚ) (h : s.gameStatus = .playing) :
    (gameTick O keys rng i s dt).player =
      updatePlayer O s.trees s.refillStations keys s.player dt := by
  rw [gameTick, if_pos h]

/-- **C2** (confirmed).  One run of the per-frame pipeline from a state
satisfying the invariants — every fire intensity in `[0, 1]`, water level
in `[0, maxWater]`, position within the margin-reduced world bounds
`|·| ≤ WORLD_SIZE / 2 - 2` — re-establishes all of them, for any inputs,
oracle and random stream, given the frame driver's non-negative
`deltaTime` (`requestAnimationFrame` timestamps are monotone). -/
theorem c2_tick_invariants (O : MathOracle) (keys : Keys) (rng : ℕ → ℚ)
    (i : ℕ) (s : SimState) (dt : ℚ) (hdt : 0 ≤ dt)
    (hfire : ∀ e ∈ s.fires, 0 ≤ e.2.intensity ∧ e.2.intensity ≤ 1)
    (hw0 : 0 ≤ s.player.waterLevel)
    (hw1 : s.player.waterLevel ≤ s.player.maxWater)
    (hx : |s.player.position.x| ≤ WORLD_SIZE / 2 - 2)
    (hz : |s.player.position.z| ≤ WORLD_SIZE / 2 - 2) :
    (∀ e ∈ (gameTick O keys rng i s dt).fires,
      0 ≤ e.2.intensity ∧ e.2.intensity ≤ 1) ∧
    0 ≤ (gameTick O keys rng i s dt).player.waterLevel ∧
    (gameTick O keys rng i s dt).player.waterLevel
      ≤ (gameTick O keys rng i s dt).player.maxWater ∧
    |(gameTick O keys rng i s dt).player.position.x| ≤ WORLD_SIZE / 2 - 2 ∧
    |(gameTick O keys rng i s dt).player.position.z| ≤ WORLD_SIZE / 2 - 2 := by
  by_cases h : s.gameStatus = .playing
  · rw [gameTick_playing_fires O keys rng i s dt h,
      gameTick_playing_player O keys rng i s dt h]
    refine ⟨?_, ?_, ?_, ?_, ?_⟩
    · exact suppress_intensity_bounds O keys _ _ dt hdt
        (updateFires_intensity _ _ _ _ _ _ _ hdt hfire)
    · exact (updatePlayer_water_bounds O s.trees s.refillStations keys
        s.player dt hdt hw0 hw1).1
    · rw [updatePlayer_maxWater]
      exact (updatePlayer_water_bounds O s.trees s.refillStations keys
        s.player dt hdt hw0 hw1).2
    · exact (updatePlayer_pos_bounds O s.trees s.refillStations keys
        s.player dt hx hz).1
    · exact (updatePlayer_pos_bounds O s.trees s.refillStations keys
        s.player dt hx hz).2
  · rw [gameTick, if_neg h]
    exact ⟨hfire, hw0, hw1, hx, hz⟩

theorem c2_witness :
    (∀ e ∈ (gameTick oracle0 keysShoot constHalf 0 stateD (1 / 10)).fires,
      0 ≤ e.2.intensity ∧ e.2.intensity ≤ 1) ∧
    0 ≤ (gameTick oracle0 keysShoot constHalf 0 stateD (1 / 10)).player.waterLevel ∧
    (gameTick oracle0 keysShoot constHalf 0 stateD (1 / 10)).player.waterLevel
      ≤ (gameTick oracle0 keysShoot constHalf 0 stateD (1 / 10)).player.maxWater ∧
    |(gameTick oracle0 keysShoot constHalf 0 stateD (1 / 10)).player.position.x|
      ≤ WORLD_SIZE / 2 - 2 ∧
    |(gameTick oracle0 keysShoot constHalf 0 stateD (1 / 10)).player.position.z|
      ≤ WORLD_SIZE / 2 - 2 :=
  c2_tick_invariants oracle0 keysShoot constHalf 0 stateD (1 / 10)
    (by norm_num)
    (by
      intro e he
      simp only [stateD, List.mem_singleton] at he
      subst he
      norm_num [fireLow])
    (by norm_num [stateD, player0])
    (by norm_num [stateD, player0])
    (by norm_num [stateD, player0, WORLD_SIZE])
    (by norm_num [stateD, player0, WORLD_SIZE])

/-- **C6** (confirmed).  A cell attempts to spread only when its
incremented timer exceeds `FIRE_SPREAD_RATE / gameSpeed` (otherwise it is
only grown, with no insertions and no draws); spreading resets the timer
to `0` and consumes exactly one independent draw per direction (four in
all, in fixed order); every inserted cell has intensity `0.3` and arises
from a direction whose own draw beat
`intensity * windSpeed * 0.2`, whose wind-biased target lies strictly
inside the world, and whose grid key was free in the current map. -/
theorem c6_fire_spread (wind : Vec3) (ws gs dt : ℚ) (rng : ℕ → ℚ)
    (done rest : FireMap) (k : ℤ × ℤ) (c : FireCell) (i : ℕ) :
    (¬ (fireGrowth dt c).spreadTime > FIRE_SPREAD_RATE / gs →
      processFire wind ws gs dt rng done rest k c i = (fireGrowth dt c, [], i)) ∧
    ((fireGrowth dt c).spreadTime > FIRE_SPREAD_RATE / gs →
      (processFire wind ws gs dt rng done rest k c i).1
          = { fireGrowth dt c with spreadTime := 0 } ∧
      (processFire wind ws gs dt rng done rest k c i).2.2 = i + 4) ∧
    (∀ e ∈ (processFire wind ws gs dt rng done rest k c i).2.1,
      e.2.intensity = 3 / 10 ∧
      ∃ j < 4,
        rng (i + j) < (fireGrowth dt c).intensity * ws * (1 / 5) ∧
        |c.x + (directions.getD j (0, 0)).1 + wind.x * GRID_SIZE|
          < WORLD_SIZE / 2 ∧
        |c.z + (directions.getD j (0, 0)).2 + wind.z * GRID_SIZE|
          < WORLD_SIZE / 2 ∧
        hasKey (done ++ (k, { fireGrowth dt c with spreadTime := 0 }) :: rest)
          (keyOf (c.x + (directions.getD j (0, 0)).1 + wind.x * GRID_SIZE)
            (c.z + (directions.getD j (0, 0)).2 + wind.z * GRID_SIZE))
          = false ∧
        e = (keyOf (c.x + (directions.getD j (0, 0)).1 + wind.x * GRID_SIZE)
              (c.z + (directions.getD j (0, 0)).2 + wind.z * GRID_SIZE),
            newFireCell (c.x + (directions.getD j (0, 0)).1 + wind.x * GRID_SIZE)
              (c.z + (directions.getD j (0, 0)).2 + wind.z * GRID_SIZE))) := by
  refine ⟨?_, ?_, ?_⟩
  · intro h
    rw [processFire, if_neg h]
  · intro h
    rw [processFire, if_pos h]
    refine ⟨rfl, ?_⟩
    rw [trySpreadDirs_idx]
    simp [directions]
  · intro e he
    rw [processFire] at he
    split at he
    · rcases trySpreadDirs_inserted _ _ _ _ _ _ _ _ _ e he with h | ⟨j, hj, h1, h2, h3, h4, h5⟩
      · simp at h
      · simp only [directions, List.length_cons, List.length_nil] at hj
        refine ⟨by rw [h5]; rfl, j, by omega, ?_⟩
        refine ⟨h1, ?_, ?_, ?_, ?_⟩ <;>
          simpa only [fireGrowth] using (by assumption)
    · simp at he

theorem c6_witness :
    (processFire wind0 (6 / 5) 1 (1 / 10) constHalf [] [] (0, 0) ⟨0, 0, 1 / 2, 4⟩
        0).1 = ⟨0, 0, 51 / 100, 0⟩ ∧
    (processFire wind0 (6 / 5) 1 (1 / 10) constHalf [] [] (0, 0) ⟨0, 0, 1 / 2, 4⟩
        0).2.2 = 0 + 4 := by
  have h := (c6_fire_spread wind0 (6 / 5) 1 (1 / 10) constHalf [] [] (0, 0)
    ⟨0, 0, 1 / 2, 4⟩ 0).2.1
    (by norm_num [fireGrowth, FIRE_SPREAD_RATE])
  refine ⟨?_, h.2⟩
  rw [h.1]
  norm_num [fireGrowth]

/-- **C7** (confirmed).  For a movement tick: the heading always takes the
turn-key update; if the full-speed candidate position is within
`trunkRadius + playerRadius = 0.4 + 1` of some tree centre the position is
left unchanged (for any in-bounds position); if it is outside every trunk
zone but within some tree's `foliageRadius + 1`, the movement is applied
at `50%` of base speed (then clamped); otherwise at full speed (then
clamped).  All distance comparisons are stated in exact square-free
form. -/
theorem c7_tree_collision (O : MathOracle) (trees : List TreeObstacle)
    (stations : List RefillStation) (keys : Keys) (p : Player) (dt : ℚ)
    (hmv : (moveVec keys).1 ≠ 0 ∨ (moveVec keys).2 ≠ 0) :
    (updatePlayer O trees stations keys p dt).rotation
      = rotAfter keys p.rotation dt ∧
    ((∃ t ∈ trees,
        (p.position.x + (rotatedDir O (rotAfter keys p.rotation dt)
            (moveVec keys)).1 * 5 * dt - t.x) ^ 2 +
          (p.position.z + (rotatedDir O (rotAfter keys p.rotation dt)
            (moveVec keys)).2 * 5 * dt - t.z) ^ 2 < (4 / 10 + 1) ^ 2) →
      |p.position.x| ≤ WORLD_SIZE / 2 - 2 →
      |p.position.z| ≤ WORLD_SIZE / 2 - 2 →
      (updatePlayer O trees stations keys p dt).position = p.position) ∧
    ((∀ t ∈ trees,
        ¬((p.position.x + (rotatedDir O (rotAfter keys p.rotation dt)
            (moveVec keys)).1 * 5 * dt - t.x) ^ 2 +
          (p.position.z + (rotatedDir O (rotAfter keys p.rotation dt)
            (moveVec keys)).2 * 5 * dt - t.z) ^ 2 < (4 / 10 + 1) ^ 2)) →
      (∃ t ∈ trees, 0 < t.radius + 1 ∧
        (p.position.x + (rotatedDir O (rotAfter keys p.rotation dt)
            (moveVec keys)).1 * 5 * dt - t.x) ^ 2 +
          (p.position.z + (rotatedDir O (rotAfter keys p.rotation dt)
            (moveVec keys)).2 * 5 * dt - t.z) ^ 2 < (t.radius + 1) ^ 2) →
      (updatePlayer O trees stations keys p dt).position.x
          = clampB (p.position.x + (rotatedDir O (rotAfter keys p.rotation dt)
              (moveVec keys)).1 * (5 * (1 / 2)) * dt) ∧
        (updatePlayer O trees stations keys p dt).position.z
          = clampB (p.position.z + (rotatedDir O (rotAfter keys p.rotation dt)
              (moveVec keys)).2 * (5 * (1 / 2)) * dt)) ∧
    ((∀ t ∈ trees,
        ¬((p.position.x + (rotatedDir O (rotAfter keys p.rotation dt)
            (moveVec keys)).1 * 5 * dt - t.x) ^ 2 +
          (p.position.z + (rotatedDir O (rotAfter keys p.rotation dt)
            (moveVec keys)).2 * 5 * dt - t.z) ^ 2 < (4 / 10 + 1) ^ 2) ∧
        ¬(0 < t.radius + 1 ∧
          (p.position.x + (rotatedDir O (rotAfter keys p.rotation dt)
              (moveVec keys)).1 * 5 * dt - t.x) ^ 2 +
            (p.position.z + (rotatedDir O (rotAfter keys p.rotation dt)
              (moveVec keys)).2 * 5 * dt - t.z) ^ 2 < (t.radius + 1) ^ 2)) →
      (updatePlayer O trees stations keys p dt).position.x
          = clampB (p.position.x + (rotatedDir O (rotAfter keys p.rotation dt)
              (moveVec keys)).1 * 5 * dt) ∧
        (updatePlayer O trees stations keys p dt).position.z
          = clampB (p.position.z + (rotatedDir O (rotAfter keys p.rotation dt)
              (moveVec keys)).2 * 5 * dt)) := by
  refine ⟨updatePlayer_rotation_eq O trees stations keys p dt, ?_, ?_, ?_⟩
  · intro htrunk hx hz
    have hscan : (treeScan
        (p.position.x + (rotatedDir O (rotAfter keys p.rotation dt)
          (moveVec keys)).1 * 5 * dt)
        (p.position.z + (rotatedDir O (rotAfter keys p.rotation dt)
          (moveVec keys)).2 * 5 * dt) trees false).1 = true := by
      rw [treeScan_fst, List.any_eq_true]
      obtain ⟨t, ht, hlt⟩ := htrunk
      exact ⟨t, ht, by rw [decide_eq_true_eq]; exact hlt⟩
    rw [updatePlayer_position_eq]
    simp only [movedXZ]
    rw [if_pos hmv]
    simp only [applyMovement]
    rw [hscan]
    simp only [if_true]
    rw [clampB_id _ hx, clampB_id _ hz]
  · intro htrunk hfol
    have hscan1 : (treeScan
        (p.position.x + (rotatedDir O (rotAfter keys p.rotation dt)
          (moveVec keys)).1 * 5 * dt)
        (p.position.z + (rotatedDir O (rotAfter keys p.rotation dt)
          (moveVec keys)).2 * 5 * dt) trees false).1 = false := by
      rw [treeScan_fst, List.any_eq_false]
      intro t ht
      simp only [decide_eq_true_eq]
      exact htrunk t ht
    have hscan2 : (treeScan
        (p.position.x + (rotatedDir O (rotAfter keys p.rotation dt)
          (moveVec keys)).1 * 5 * dt)
        (p.position.z + (rotatedDir O (rotAfter keys p.rotation dt)
          (moveVec keys)).2 * 5 * dt) trees false).2 = true := by
      rw [treeScan_snd _ _ _ _ hscan1, Bool.false_or, List.any_eq_true]
      obtain ⟨t, ht, hlt⟩ := hfol
      exact ⟨t, ht, by rw [decide_eq_true_eq]; exact hlt⟩
    rw [updatePlayer_position_eq]
    simp only [movedXZ]
    rw [if_pos hmv]
    simp only [applyMovement]
    rw [hscan1, hscan2]
    simp
  · intro hboth
    have hscan1 : (treeScan
        (p.position.x + (rotatedDir O (rotAfter keys p.rotation dt)
          (moveVec keys)).1 * 5 * dt)
        (p.position.z + (rotatedDir O (rotAfter keys p.rotation dt)
          (moveVec keys)).2 * 5 * dt) trees false).1 = false := by
      rw [treeScan_fst, List.any_eq_false]
      intro t ht
      simp only [decide_eq_true_eq]
      exact (hboth t ht).1
    have hscan2 : (treeScan
        (p.position.x + (rotatedDir O (rotAfter keys p.rotation dt)
          (moveVec keys)).1 * 5 * dt)
        (p.position.z + (rotatedDir O (rotAfter keys p.rotation dt)
          (moveVec keys)).2 * 5 * dt) trees false).2 = false := by
      rw [treeScan_snd _ _ _ _ hscan1, Bool.false_or, List.any_eq_false]
      intro t ht
      simp only [decide_eq_true_eq]
      exact (hboth t ht).2
    rw [updatePlayer_position_eq]
    simp only [movedXZ]
    rw [if_pos hmv]
    simp only [applyMovement]
    rw [hscan1, hscan2]
    simp

theorem c7_witness :
    (updatePlayer oracle0 [treeC] refillStations0 keysWLeft player0
        (1 / 10)).position = player0.position ∧
    (updatePlayer oracle0 [treeC] refillStations0 keysWLeft player0
        (1 / 10)).rotation = 24 / 125 := by
  have h := c7_tree_collision oracle0 [treeC] refillStations0 keysWLeft player0
    (1 / 10) (by norm_num [moveVec, keysWLeft])
  refine ⟨h.2.1 ?_ ?_ ?_, ?_⟩
  · refine ⟨treeC, List.mem_singleton_self _, ?_⟩
    norm_num [rotatedDir, rotAfter, moveVec, keysWLeft, player0, oracle0, treeC]
  · norm_num [player0, WORLD_SIZE]
  · norm_num [player0, WORLD_SIZE]
  · rw [h.1]
    norm_num [rotAfter, keysWLeft, player0]

theorem treeAttempts_constHalf (stations : List RefillStation)
    (trees : List TreeObstacle) :
    ∀ (n i : ℕ), treeAttempts constHalf stations trees n i = (trees, i + 3 * n) := by
  intro n
  induction n with
  | zero => intro i; simp [treeAttempts]
  | succ n ih =>
    intro i
    rw [treeAttempts]
    norm_num [constHalf, WORLD_SIZE]
    rw [ih]
    simp only [Prod.mk.injEq, true_and]
    omega

theorem genTreesLoop_constHalf :
    ∀ (n i : ℕ), genTreesLoop constHalf refillStations0 n [] i = ([], i + 600 * n) := by
  intro n
  induction n with
  | zero => intro i; simp [genTreesLoop]
  | succ n ih =>
    intro i
    rw [genTreesLoop, if_pos (by norm_num)]
    rw [treeAttempts_constHalf]
    simp only []
    rw [ih]
    simp only [Prod.mk.injEq, true_and]
    omega

theorem fireAttempts_occupied (m : FireMap) (h : hasKey m (0, 0) = true) :
    ∀ (n i : ℕ), fireAttempts constHalf m n i 0 0 = (0, 0, false, i + 2 * n) := by
  intro n
  induction n with
  | zero => intro i; simp [fireAttempts]
  | succ n ih =>
    intro i
    rw [fireAttempts]
    have ha : ∀ j : ℕ, (constHalf j - 1 / 2) * (WORLD_SIZE - 10) = 0 := fun j => by
      norm_num [constHalf, WORLD_SIZE]
    simp only [ha,
      show keyOf 0 0 = ((0 : ℤ), (0 : ℤ)) from by norm_num [keyOf, GRID_SIZE], h]
    norm_num
    rw [ih]
    simp only [Prod.mk.injEq, true_and]
    ring

theorem placeFire_empty (i : ℕ) :
    placeFire constHalf i [] = ([((0, 0), ⟨0, 0, 3 / 4, 0⟩)], i + 5) := by
  rw [placeFire]
  rw [show (100 : ℕ) = 99 + 1 from rfl, fireAttempts]
  norm_num [constHalf, WORLD_SIZE, keyOf, GRID_SIZE, hasKey, setKey]

theorem placeFire_occupied (m : FireMap) (h : hasKey m (0, 0) = true) (i : ℕ) :
    placeFire constHalf i m = (setKey m (0, 0) ⟨0, 0, 3 / 4, 0⟩, i + 205) := by
  rw [placeFire]
  have ha : ∀ j : ℕ, (constHalf j - 1 / 2) * (WORLD_SIZE - 10) = 0 := by
    intro j; norm_num [constHalf, WORLD_SIZE]
  rw [ha i, ha (i + 1), fireAttempts_occupied m h 100 (i + 2)]
  norm_num [constHalf, WORLD_SIZE, keyOf, GRID_SIZE]

theorem placeFire_is_set (rng : ℕ → ℚ) (i : ℕ) (m : FireMap) :
    ∃ k c, (placeFire rng i m).1 = setKey m k c := ⟨_, _, rfl⟩

theorem initFiresLoop_length_ge :
    ∀ (n : ℕ) (rng : ℕ → ℚ) (m : FireMap) (i : ℕ),
      m.length ≤ (initFiresLoop rng n m i).1.length := by
  intro n
  induction n with
  | zero => intro rng m i; simp [initFiresLoop]
  | succ n ih =>
    intro rng m i
    rw [initFiresLoop]
    obtain ⟨k, c, hset⟩ := placeFire_is_set rng i m
    calc m.length ≤ (setKey m k c).length := setKey_length_ge m k c
      _ = (placeFire rng i m).1.length := by rw [hset]
      _ ≤ _ := ih rng _ _

theorem initFiresLoop_length_le :
    ∀ (n : ℕ) (rng : ℕ → ℚ) (m : FireMap) (i : ℕ),
      (initFiresLoop rng n m i).1.length ≤ m.length + n := by
  intro n
  induction n with
  | zero => intro rng m i; simp [initFiresLoop]
  | succ n ih =>
    intro rng m i
    rw [initFiresLoop]
    obtain ⟨k, c, hset⟩ := placeFire_is_set rng i m
    calc (initFiresLoop rng n (placeFire rng i m).1 (placeFire rng i m).2).1.length
        ≤ (placeFire rng i m).1.length + n := ih rng _ _
      _ = (setKey m k c).length + n := by rw [hset]
      _ ≤ m.length + 1 + n := by
          have := setKey_length_le m k c
          omega
      _ = m.length + (n + 1) := by omega

theorem initFiresLoop_length_pos (n : ℕ) (rng : ℕ → ℚ) (m : FireMap) (i : ℕ) :
    1 ≤ (initFiresLoop rng (n + 1) m i).1.length := by
  rw [initFiresLoop]
  obtain ⟨k, c, hset⟩ := placeFire_is_set rng i m
  calc (1 : ℕ) ≤ (setKey m k c).length := setKey_length_pos m k c
    _ = (placeFire rng i m).1.length := by rw [hset]
    _ ≤ _ := initFiresLoop_length_ge n rng _ _

theorem initFiresLoop_m1 :
    ∀ (n i : ℕ),
      initFiresLoop constHalf n [((0, 0), ⟨0, 0, 3 / 4, 0⟩)] i
        = ([((0, 0), ⟨0, 0, 3 / 4, 0⟩)], i + 205 * n) := by
  intro n
  induction n with
  | zero => intro i; simp [initFiresLoop]
  | succ n ih =>
    intro i
    rw [initFiresLoop]
    rw [placeFire_occupied _ (by simp [hasKey]) i]
    show initFiresLoop constHalf n [((0, 0), ⟨0, 0, 3 / 4, 0⟩)] (i + 205) = _
    rw [ih]
    simp only [Prod.mk.injEq, true_and]
    ring

theorem initializeFires_constHalf :
    initializeFires constHalf 0 = ([((0, 0), ⟨0, 0, 3 / 4, 0⟩)], 825) := by
  show initFiresLoop constHalf (4 + 1) [] 0 = _
  rw [initFiresLoop]
  rw [placeFire_empty 0]
  simp only []
  rw [initFiresLoop_m1 4 5]

/-- **C9** (confirmed).  `initializeFires` performs exactly
`INITIAL_FIRES = 5` unconditional `Map.set` operations, so the result has
between `1` and `5` cells; when the fallback position's key collides with
an already placed cell's key, `set` overwrites it, so the result can be
strictly smaller than `5` (with the constant-`1/2` random stream all five
fires land on key `(0, 0)` and one cell remains) — but never zero. -/
theorem c9_initial_fire_count :
    (∀ (rng : ℕ → ℚ) (i : ℕ),
      1 ≤ (initializeFires rng i).1.length ∧
        (initializeFires rng i).1.length ≤ INITIAL_FIRES) ∧
    (initializeFires constHalf 0).1.length = 1 := by
  constructor
  · intro rng i
    constructor
    · exact initFiresLoop_length_pos 4 rng [] i
    · have h := initFiresLoop_length_le 5 rng [] i
      simpa [initializeFires, INITIAL_FIRES] using h
  · rw [initializeFires_constHalf]
    rfl

/-- **C5 counterexample**.  The claim says that a tree whose bounded
placement loop exhausts its 200 attempts is still placed at an
unconstrained random position, so session start always yields the
configured 40 trees.  With the constant-`1/2` random stream every
candidate is the world centre, every attempt fails the `nearCenter` check,
and `generateTrees` returns NO trees at all: the source has no fallback
branch for trees. -/
theorem c5_trees_skipped_counterexample :
    (generateTrees constHalf refillStations0 0).1.length = 0 := by
  rw [generateTrees, genTreesLoop_constHalf]
  rfl

/-- **C5** (corrected).  What the code does: for seed FIRES the fallback
exists — every iteration of `initializeFires` ends in an unconditional
`Map.set` (so a fire is always placed, possibly overwriting); for TREES
there is no fallback — when all 200 attempts collide the tree is skipped
and fewer than 40 (here zero) trees are generated. -/
theorem c5_fire_fallback_tree_skip :
    (∀ (rng : ℕ → ℚ) (i : ℕ) (m : FireMap),
      ∃ k c, (placeFire rng i m).1 = setKey m k c) ∧
    (generateTrees constHalf refillStations0 0).1 = [] := by
  constructor
  · intro rng i m
    exact ⟨_, _, rfl⟩
  · rw [generateTrees, genTreesLoop_constHalf]
